import Mathlib

/-! Shallow embedding of the training/evaluation controller in `sympa/runner.py`
(class `Runner`).  External numeric collaborators (the embedding model, the
optimizer, the learning-rate scheduler, autograd) are abstracted as function
parameters; everything the controller itself does (epoch loop, gradient
accumulation, validation cadence, early stopping, best-model tracking,
checkpointing and result export) is translated directly from the source.
Machine floats are modelled as rationals.
-/

/-- Configuration surface of the runner: the argparse `args` fields that
`Runner` reads (`self.args.*`). -/
structure Args where
  batch_size : Nat
  epochs : Nat
  grad_accum_steps : Nat
  max_grad_norm : ℚ
  save_epochs : Nat
  val_every : Nat
  patience : Nat
  model : String
  dims : Nat
  data : String
  run_id : String
  results_file : String
deriving DecidableEq

/-- One row appended to the results store by `Runner.export_results`. -/
structure ResultRecord where
  data : String
  dims : Nat
  manifold : String
  run_id : String
  distortion : ℚ
  mAP : ℚ
deriving DecidableEq

/-- Model of `Runner.export_results(avg_distortion, avg_precision)`: doubles the
nominal dimension count for the matrix manifolds (`upper`/`bounded`) and
rescales the two fractional metrics to percentages before appending the row. -/
def export_results (args : Args) (avg_distortion avg_precision : ℚ) : ResultRecord :=
  let manifold := args.model
  let dims := if manifold = "upper" ∨ manifold = "bounded" then
      args.dims * (args.dims + 1) else args.dims
  { data := args.data, dims := dims, manifold := manifold, run_id := args.run_id,
    distortion := avg_distortion * 100, mAP := avg_precision * 100 }

/-- Model of `Runner.check_points_in_manifold`: the arguments are the triple returned
by the collaborator call `self.model.check_all_points()`, namely
`(all_points_ok, outside_point, reason)` with the offending point rendered as
text.  On a violation it raises `AssertionError` with the formatted message;
we model raising as `Except.error`. -/
def check_points_in_manifold (all_points_ok : Bool) (outside_point reason : String) :
    Except String Unit :=
  if all_points_ok then .ok () else
    .error ("Point outside manifold. Reason: " ++ reason ++ "\n" ++ outside_point)

/-- External collaborators used inside the batch loop of `Runner.train_epoch`.
`π` is the type of the model parameters, `γ` the type of the accumulated
gradient, `β` the type of one training batch.
* `lossOf p b` — the scalar value of `loss.calculate_loss(...)` for batch `b`
  at parameters `p`, before the division by `grad_accum_steps`;
* `gradOf p b` — the gradient contribution accumulated by `loss.backward()`
  for batch `b` at parameters `p` (gradient of the already scaled loss);
* `addG` / `zeroG` — gradient accumulation and `zero_grad()`;
* `clip` — `clip_grad_norm_(parameters, max_grad_norm)` acting on the
  accumulated gradient;
* `stepF p g` — `optimizer.step()` updating parameters `p` from gradient `g`. -/
structure TCfg (π γ β : Type) where
  lossOf : π → β → ℚ
  gradOf : π → β → γ
  addG : γ → γ → γ
  zeroG : γ
  clip : γ → γ
  stepF : π → γ → π

/-- Mutable state of the batch loop in `Runner.train_epoch`: current
parameters, currently accumulated gradient and the running `tr_loss` sum.
`nSteps` is a ghost counter of how many times `optimizer.step()` has run. -/
structure BState (π γ : Type) where
  params : π
  grad : γ
  trLoss : ℚ
  nSteps : Nat
deriving DecidableEq

/-- Body of `for step, batch in enumerate(train_split)` in
`Runner.train_epoch`: forward/loss/backward, `tr_loss += loss.item()` (the
loss is already scaled by `1/grad_accum_steps`), and every `grad_accum_steps`
batches clip the gradient, apply the optimizer step and zero the gradients.
`i` is the 0-based `step` index, `K` is `grad_accum_steps`. -/
def batchStep {π γ β : Type} (cfg : TCfg π γ β) (K : Nat) (i : Nat) (b : β)
    (st : BState π γ) : BState π γ :=
  let g := cfg.addG st.grad (cfg.gradOf st.params b)
  let trLoss := st.trLoss + cfg.lossOf st.params b / (K : ℚ)
  if (i + 1) % K = 0 then
    { params := cfg.stepF st.params (cfg.clip g), grad := cfg.zeroG,
      trLoss := trLoss, nSteps := st.nSteps + 1 }
  else
    { params := st.params, grad := g, trLoss := trLoss, nSteps := st.nSteps }

/-- The batch loop of `Runner.train_epoch`, starting at step index `i`. -/
def foldBatches {π γ β : Type} (cfg : TCfg π γ β) (K : Nat) :
    List β → Nat → BState π γ → BState π γ
  | [], _, st => st
  | b :: bs, i, st => foldBatches cfg K bs (i + 1) (batchStep cfg K i b st)

/-- State of the batch loop after one call of `Runner.train_epoch` (manifold
check aside): the loop starts from step 0 after `self.model.zero_grad();
self.optimizer.zero_grad()`, so any gradient `gLeft` left over from a previous
epoch is discarded and `tr_loss` starts at `0.0`. -/
def train_epoch_core {π γ β : Type} (cfg : TCfg π γ β) (K : Nat) (batches : List β)
    (p : π) (gLeft : γ) : BState π γ :=
  foldBatches cfg K batches 0 { params := p, grad := cfg.zeroG, trLoss := 0, nSteps := 0 }

/-- Return value of `Runner.train_epoch`: `tr_loss / len(train_split)`. -/
def train_epoch_loss {π γ β : Type} (cfg : TCfg π γ β) (K : Nat) (batches : List β)
    (p : π) (gLeft : γ) : ℚ :=
  (train_epoch_core cfg K batches p gLeft).trLoss / (batches.length : ℚ)

/-- The sequence of unscaled per-batch loss values (`loss.calculate_loss`
before the division by `grad_accum_steps`) produced along the batch loop,
each evaluated at the parameters current when its batch is processed. -/
def unscaledLosses {π γ β : Type} (cfg : TCfg π γ β) (K : Nat) :
    List β → Nat → BState π γ → List ℚ
  | [], _, _ => []
  | b :: bs, i, st => cfg.lossOf st.params b :: unscaledLosses cfg K bs (i + 1) (batchStep cfg K i b st)

/-- The unscaled per-batch losses of one `Runner.train_epoch` call. -/
def epochUnscaledLosses {π γ β : Type} (cfg : TCfg π γ β) (K : Nat) (batches : List β)
    (p : π) (gLeft : γ) : List ℚ :=
  unscaledLosses cfg K batches 0 { params := p, grad := cfg.zeroG, trLoss := 0, nSteps := 0 }

/-- Model of `Runner.train_epoch` including the leading
`self.check_points_in_manifold()`: if the manifold check fails the
`AssertionError` propagates and no batch of the epoch is processed. -/
def train_epoch {π γ β : Type} (cfg : TCfg π γ β) (K : Nat)
    (check : Bool × String × String) (batches : List β) (p : π) (gLeft : γ) :
    Except String (BState π γ) :=
  match check_points_in_manifold check.1 check.2.1 check.2.2 with
  | .error msg => .error msg
  | .ok _ => .ok (train_epoch_core cfg K batches p gLeft)

/-- Model of `statistics.mean` on a list of rationals (the Python version raises on an
empty list; here the empty case yields `0/0 = 0` and theorems exclude it). -/
def mean (l : List ℚ) : ℚ := l.sum / (l.length : ℚ)

/-- Model of `Runner.evaluate(eval_split)`: the per-batch collaborator calls
(`model` forward and `metric.calculate_metric`) yield one per-pair distortion
vector per batch, which `total_distortion.extend(...)` concatenates; the
returned value is `mean(total_distortion)`. -/
def evaluate (batch_distortions : List (List ℚ)) : ℚ :=
  let total_distortion := batch_distortions.foldl (fun acc d => acc ++ d) []
  mean total_distortion

/-- Checkpoint key `run_id + "-best-" + epoch + "ep"` used by
`Runner.save_model` (an f-string in the source). -/
def saveKey (run_id : String) (epoch : Int) : String :=
  run_id ++ "-best-" ++ toString epoch ++ "ep"

/-- One blob written to the checkpoint store by `Runner.save_model`:
the key and the stored dict of model state and `id2node`. -/
structure Ckpt (σ ι : Type) where
  key : String
  model : σ
  id2node : ι
deriving DecidableEq

/-- Ghost record of one validation event of the epoch loop: the epoch at
which `Runner.evaluate` ran, the distortion it returned, and the model state
it evaluated. -/
structure ValEvent (σ : Type) where
  epoch : Int
  dist : ℚ
  state : σ
deriving DecidableEq

/-- State threaded through the epoch loop of `Runner.run`:
`best_distortion` (with `none` modelling the initial `float` infinity),
`best_epoch` (initially `-1`), `best_model_state`, the checkpoints written so
far, and the ghost history of validation events. -/
structure LoopSt (σ ι : Type) where
  bestDistortion : Option ℚ
  bestEpoch : Int
  bestState : Option σ
  ckpts : List (Ckpt σ ι)
  valHistory : List (ValEvent σ)
deriving DecidableEq

/-- Initial loop state of `Runner.run`:
`best_distortion, best_epoch = float inf, -1` and `best_model_state = None`. -/
def initLoopSt {σ ι : Type} : LoopSt σ ι :=
  { bestDistortion := none, bestEpoch := -1, bestState := none, ckpts := [], valHistory := [] }

/-- The comparison `distortion < best_distortion` of `Runner.run`, where the
current best may still be the initial infinity. -/
def improves (d : ℚ) : Option ℚ → Bool
  | none => true
  | some b => decide (d < b)

/-- Per-epoch collaborators of `Runner.run`.  `trainEpoch e` is the result of
`self.train_epoch(self.train, e)` at epoch `e` — an error if the manifold
check raised, otherwise the model state after the epoch (training is driven
sequentially, so the state reached at epoch `e` is a function of `e`);
`valDist s` is `self.evaluate(self.validate)` on model state `s`, and
`mAP s` is `self.calculate_mAP()` on model state `s`. -/
structure RunEnv (σ : Type) where
  trainEpoch : Nat → Except String σ
  valDist : σ → ℚ
  mAP : σ → ℚ

/-- Body of one iteration of the epoch loop in `Runner.run` at epoch `e`:
train the epoch (propagating a manifold-check error), checkpoint when
`e % save_epochs == 0`, and when `e % val_every == 0` evaluate, update the
best snapshot on strict improvement, and test the early-stopping condition
`epoch - best_epoch >= patience * 3`.  The returned flag is `true` when the
loop `break`s. -/
def epochBody {σ ι : Type} (env : RunEnv σ) (a : Args) (id2 : ι) (e : Nat)
    (st : LoopSt σ ι) : Except String (LoopSt σ ι × Bool) :=
  match env.trainEpoch e with
  | .error msg => .error msg
  | .ok s =>
    let st1 := if e % a.save_epochs = 0 then
        { st with ckpts := st.ckpts ++ [⟨saveKey a.run_id (e : Int), s, id2⟩] } else st
    if e % a.val_every = 0 then
      let d := env.valDist s
      let st2 := { st1 with valHistory := st1.valHistory ++ [⟨(e : Int), d, s⟩] }
      let st3 := if improves d st2.bestDistortion then
          { st2 with bestDistortion := some d, bestEpoch := (e : Int), bestState := some s }
        else st2
      if (e : Int) - st3.bestEpoch ≥ (a.patience : Int) * 3 then .ok (st3, true)
      else .ok (st3, false)
    else .ok (st1, false)

/-- The epoch loop of `Runner.run` over a list of epoch numbers, threading
the loop state and the last executed epoch; returns the final state, the last
epoch executed and whether the loop stopped early. -/
def runLoop {σ ι : Type} (env : RunEnv σ) (a : Args) (id2 : ι) :
    List Nat → Nat → LoopSt σ ι → Except String (LoopSt σ ι × Nat × Bool)
  | [], prev, st => .ok (st, prev, false)
  | e :: rest, _, st =>
    match epochBody env a id2 e st with
    | .error msg => .error msg
    | .ok (st1, brk) =>
      if brk then .ok (st1, e, true) else runLoop env a id2 rest e st1

/-- Observable outcome of a completed `Runner.run`: every checkpoint written
(periodic ones in loop order, then the final one for the best epoch), the
exported results row, the last epoch the loop executed, whether it stopped
early, and the best epoch / restored best model with its final metrics. -/
structure RunOutcome (σ ι : Type) where
  ckpts : List (Ckpt σ ι)
  exported : ResultRecord
  lastEpoch : Nat
  earlyStopped : Bool
  bestEpoch : Int
  bestModel : σ
  finalDistortion : ℚ
  finalMAP : ℚ
deriving DecidableEq

/-- Model of `Runner.run`: the epoch loop over `trange(1, epochs + 1)` followed by
finalization: `load_state_dict(best_model_state)` — which fails when the
snapshot is still `None` because validation never ran (torch rejects a
non-dict argument), modelled as `Except.error` — then the final evaluation,
`calculate_mAP`, `export_results`, and `save_model(best_epoch)`. -/
def run {σ ι : Type} (env : RunEnv σ) (a : Args) (id2 : ι) :
    Except String (RunOutcome σ ι) :=
  match runLoop env a id2 (List.range' 1 a.epochs) 0 initLoopSt with
  | .error msg => .error msg
  | .ok (st, last, stopped) =>
    match st.bestState with
    | none => .error "load_state_dict received None: no best model snapshot was recorded"
    | some s =>
      let d := env.valDist s
      let p := env.mAP s
      let record := export_results a d p
      .ok { ckpts := st.ckpts ++ [⟨saveKey a.run_id st.bestEpoch, s, id2⟩],
            exported := record, lastEpoch := last, earlyStopped := stopped,
            bestEpoch := st.bestEpoch, bestModel := s,
            finalDistortion := d, finalMAP := p }

/-- A concrete instantiation of the training collaborators, used by concrete
instances: parameters and gradients are rationals, every batch has unscaled
loss `1` and gradient contribution `1`, the optimizer step adds the gradient. -/
def cfgQ : TCfg ℚ ℚ Unit :=
  { lossOf := fun _ _ => 1, gradOf := fun _ _ => 1, addG := (· + ·), zeroG := 0,
    clip := id, stepF := fun p g => p + g }

/-- A concrete run environment: every epoch trains successfully, validation
distortion is constantly `2` (so the first validation improves on the initial
infinity and no later one improves on it), and mAP is constantly `3`. -/
def envW : RunEnv Unit :=
  { trainEpoch := fun _ => .ok (), valDist := fun _ => 2, mAP := fun _ => 3 }

/-- A run environment whose `train_epoch` raises a manifold violation at
every epoch. -/
def envErr : RunEnv Unit :=
  { trainEpoch := fun _ => .error ("Point outside manifold. Reason: " ++ "r" ++ "\n" ++ "p0"),
    valDist := fun _ => 2, mAP := fun _ => 3 }

/-- A concrete configuration: 10 epochs, validation every 2 epochs,
checkpoint every 7 epochs, patience 1. -/
def argsW : Args :=
  { batch_size := 5, epochs := 10, grad_accum_steps := 1, max_grad_norm := 50,
    save_epochs := 7, val_every := 2, patience := 1, model := "upper", dims := 3,
    data := "grid", run_id := "r", results_file := "out" }

/-- Configuration whose validation cadence never triggers: 2 epochs with
`val_every = 5`. -/
def argsC5 : Args := { argsW with epochs := 2, val_every := 5 }

/-- Configuration validating and checkpointing every epoch, for one epoch. -/
def argsC9 : Args := { argsW with epochs := 1, save_epochs := 1, val_every := 1 }

/-- Configuration validating every epoch with patience 5. -/
def argsC2 : Args := { argsW with val_every := 1, save_epochs := 3, patience := 5 }

/-- The loop state reached after the first validation epoch of `envW` with
`argsC2`. -/
def stC2 : LoopSt Unit Unit :=
  { bestDistortion := some 2, bestEpoch := 1, bestState := some (), ckpts := [],
    valHistory := [⟨1, 2, ()⟩] }

/-- The loop state of a run of `envW` with `argsW` just after its best epoch
2 (validation distortion 2 recorded at epoch 2). -/
def stC1 : LoopSt Unit Unit :=
  { bestDistortion := some 2, bestEpoch := 2, bestState := some (), ckpts := [],
    valHistory := [⟨2, 2, ()⟩] }

/-- The outcome of running `envW` under `argsC9`. -/
def outC9 : RunOutcome Unit Unit :=
  { ckpts := [⟨saveKey "r" 1, (), ()⟩, ⟨saveKey "r" 1, (), ()⟩],
    exported := export_results argsC9 2 3, lastEpoch := 1, earlyStopped := false,
    bestEpoch := 1, bestModel := (), finalDistortion := 2, finalMAP := 3 }

/-- The constant state function of `envW`. -/
def sfunW : Nat → Unit := fun _ => ()

/-- The Best-Model Snapshot invariant of the epoch loop: either no validation
has happened yet and the best-tracking fields still hold their initial values
(`float` infinity, epoch `-1`, `None`), or the validation history splits as
`pre ++ best :: post` where the `best` entry carries exactly the recorded
`best_epoch`, the recorded best distortion and the snapshotted state, every
earlier validation had strictly larger distortion (so the snapshot is the
earliest minimum) and every later validation had distortion not below the
best (so a tie never replaced the snapshot). -/
def bestInv {σ ι : Type} (st : LoopSt σ ι) : Prop :=
  (st.valHistory = [] ∧ st.bestDistortion = none ∧ st.bestEpoch = -1 ∧ st.bestState = none) ∨
  (∃ d s pre post,
    st.bestDistortion = some d ∧ st.bestState = some s ∧
    st.valHistory = pre ++ { epoch := st.bestEpoch, dist := d, state := s } :: post ∧
    (∀ ev ∈ pre, d < ev.dist) ∧ (∀ ev ∈ post, d ≤ ev.dist))

/-! Helper lemmas about the batch loop. -/

theorem batchStep_trLoss {π γ β : Type} (cfg : TCfg π γ β) (K i : Nat) (b : β)
    (st : BState π γ) :
    (batchStep cfg K i b st).trLoss = st.trLoss + cfg.lossOf st.params b / (K : ℚ) := by
  unfold batchStep
  split <;> rfl

theorem batchStep_nSteps {π γ β : Type} (cfg : TCfg π γ β) (K i : Nat) (b : β)
    (st : BState π γ) :
    (batchStep cfg K i b st).nSteps = st.nSteps + (if (i + 1) % K = 0 then 1 else 0) := by
  unfold batchStep
  split <;> simp_all

theorem foldBatches_nSteps {π γ β : Type} (cfg : TCfg π γ β) (K : Nat) (bs : List β) :
    ∀ (i : Nat) (st : BState π γ),
      (foldBatches cfg K bs i st).nSteps = st.nSteps + ((i + bs.length) / K - i / K) := by
  induction bs with
  | nil => intro i st; simp [foldBatches]
  | cons b bs ih =>
    intro i st
    simp only [foldBatches, List.length_cons]
    rw [ih, batchStep_nSteps]
    have hsucc : (i + 1) / K = i / K + if K ∣ i + 1 then 1 else 0 := Nat.succ_div i K
    have hmono : (i + 1) / K ≤ (i + 1 + bs.length) / K :=
      Nat.div_le_div_right (Nat.le_add_right _ _)
    have harith : i + (bs.length + 1) = i + 1 + bs.length := by omega
    rw [harith]
    by_cases h : (i + 1) % K = 0
    · have hdvd : K ∣ i + 1 := Nat.dvd_of_mod_eq_zero h
      rw [if_pos h]
      rw [if_pos hdvd] at hsucc
      omega
    · have hdvd : ¬ K ∣ i + 1 := fun hc => by
        obtain ⟨c, hc⟩ := hc
        exact h (by rw [hc]; exact Nat.mul_mod_right K c)
      rw [if_neg h]
      rw [if_neg hdvd] at hsucc
      omega

theorem foldBatches_append {π γ β : Type} (cfg : TCfg π γ β) (K : Nat) (as : List β) :
    ∀ (bs : List β) (i : Nat) (st : BState π γ),
      foldBatches cfg K (as ++ bs) i st =
        foldBatches cfg K bs (i + as.length) (foldBatches cfg K as i st) := by
  induction as with
  | nil => intro bs i st; simp [foldBatches]
  | cons a as ih =>
    intro bs i st
    have hidx : i + 1 + as.length = i + (as.length + 1) := by omega
    show foldBatches cfg K (as ++ bs) (i + 1) (batchStep cfg K i a st)
        = foldBatches cfg K bs (i + (as.length + 1)) (foldBatches cfg K as (i + 1) (batchStep cfg K i a st))
    rw [← hidx]
    exact ih bs (i + 1) (batchStep cfg K i a st)

theorem foldBatches_params_of_no_step {π γ β : Type} (cfg : TCfg π γ β) (K : Nat)
    (bs : List β) :
    ∀ (i : Nat) (st : BState π γ),
      (∀ j, i ≤ j → j < i + bs.length → (j + 1) % K ≠ 0) →
      (foldBatches cfg K bs i st).params = st.params := by
  induction bs with
  | nil => intro i st _; rfl
  | cons b bs ih =>
    intro i st h
    simp only [foldBatches]
    rw [ih (i + 1) _ (fun j h1 h2 => h j (by omega) (by simp only [List.length_cons]; omega))]
    have hstep : (i + 1) % K ≠ 0 := h i le_rfl (by simp only [List.length_cons]; omega)
    unfold batchStep
    rw [if_neg hstep]

theorem foldBatches_trLoss {π γ β : Type} (cfg : TCfg π γ β) (K : Nat) (bs : List β) :
    ∀ (i : Nat) (st : BState π γ),
      (foldBatches cfg K bs i st).trLoss =
        st.trLoss + (unscaledLosses cfg K bs i st).sum / (K : ℚ) := by
  induction bs with
  | nil => intro i st; simp [foldBatches, unscaledLosses]
  | cons b bs ih =>
    intro i st
    simp only [foldBatches, unscaledLosses, List.sum_cons]
    rw [ih, batchStep_trLoss, add_div]
    ring

theorem unscaledLosses_length {π γ β : Type} (cfg : TCfg π γ β) (K : Nat) (bs : List β) :
    ∀ (i : Nat) (st : BState π γ), (unscaledLosses cfg K bs i st).length = bs.length := by
  induction bs with
  | nil => intro i st; rfl
  | cons b bs ih => intro i st; simp only [unscaledLosses, List.length_cons, ih]

/-- C3: in a training epoch with `B` batches and accumulation window
`grad_accum_steps = K > 0`, the optimizer step is applied exactly `B / K`
(floor) times; restricting the epoch to the first `K * (B / K)` batches (the
complete windows) already yields all of those steps, so no step occurs on a
partial trailing window; and every step is preceded by gradient clipping and
followed by gradient zeroing. -/
theorem C3_optimizer_step_count {π γ β : Type} (cfg : TCfg π γ β) (K : Nat)
    (batches : List β) (p : π) (g : γ) (hK : 0 < K) :
    (train_epoch_core cfg K batches p g).nSteps = batches.length / K ∧
    (train_epoch_core cfg K (batches.take (K * (batches.length / K))) p g).nSteps
      = batches.length / K ∧
    (∀ (i : Nat) (b : β) (st : BState π γ), (i + 1) % K = 0 →
      batchStep cfg K i b st =
        { params := cfg.stepF st.params (cfg.clip (cfg.addG st.grad (cfg.gradOf st.params b))),
          grad := cfg.zeroG,
          trLoss := st.trLoss + cfg.lossOf st.params b / (K : ℚ),
          nSteps := st.nSteps + 1 }) := by
  refine ⟨?_, ?_, ?_⟩
  · rw [train_epoch_core, foldBatches_nSteps]
    simp
  · have hle : K * (batches.length / K) ≤ batches.length := by
      rw [mul_comm]; exact Nat.div_mul_le_self _ _
    rw [train_epoch_core, foldBatches_nSteps, List.length_take, min_eq_left hle]
    simpa using Nat.mul_div_cancel_left (batches.length / K) hK
  · intro i b st h
    unfold batchStep
    rw [if_pos h]

/-- Witness for C3: three batches with window 2 yield exactly 1 optimizer
step, also when the partial third batch is dropped. -/
theorem C3_optimizer_step_count_witness :
    (0 < 2) ∧
    (train_epoch_core cfgQ 2 [(), (), ()] (0 : ℚ) (0 : ℚ)).nSteps = [(), (), ()].length / 2 ∧
    (train_epoch_core cfgQ 2 ([(), (), ()].take (2 * ([(), (), ()].length / 2)))
        (0 : ℚ) (0 : ℚ)).nSteps = [(), (), ()].length / 2 :=
  ⟨by decide, (C3_optimizer_step_count cfgQ 2 [(), (), ()] 0 0 (by decide)).1,
   (C3_optimizer_step_count cfgQ 2 [(), (), ()] 0 0 (by decide)).2.1⟩

/-- C10: gradients accumulated during a partial trailing accumulation window
never affect the parameters: the parameters after an epoch equal the
parameters after training on the complete windows only (the first
`K * (B / K)` batches), and whatever gradient was left over from a previous
epoch is discarded by the `zero_grad()` calls at the start of `train_epoch`,
so the result does not depend on it. -/
theorem C10_trailing_window_no_effect {π γ β : Type} (cfg : TCfg π γ β) (K : Nat)
    (batches : List β) (p : π) (hK : 0 < K) :
    (∀ g : γ, (train_epoch_core cfg K batches p g).params =
        (train_epoch_core cfg K (batches.take (K * (batches.length / K))) p g).params) ∧
    (∀ g g' : γ, train_epoch_core cfg K batches p g = train_epoch_core cfg K batches p g') := by
  constructor
  · intro g
    conv_lhs => rw [← List.take_append_drop (K * (batches.length / K)) batches]
    rw [train_epoch_core, train_epoch_core, foldBatches_append]
    have hle : K * (batches.length / K) ≤ batches.length := by
      rw [mul_comm]; exact Nat.div_mul_le_self _ _
    apply foldBatches_params_of_no_step
    intro j h1 h2 hmod
    rw [List.length_take, min_eq_left hle] at h1
    rw [List.length_take, List.length_drop, min_eq_left hle] at h2
    obtain ⟨t, ht⟩ := Nat.dvd_of_mod_eq_zero hmod
    have hqt : batches.length / K < t := by
      have hlt : K * (batches.length / K) < K * t := by omega
      exact lt_of_mul_lt_mul_left hlt (Nat.zero_le K)
    have hKt : K * (batches.length / K + 1) ≤ K * t :=
      Nat.mul_le_mul_left K (Nat.succ_le_of_lt hqt)
    have hmodB : K * (batches.length / K) + batches.length % K = batches.length :=
      Nat.div_add_mod batches.length K
    have hchain : K * (batches.length / K) + K
        ≤ K * (batches.length / K) + batches.length % K := by
      calc K * (batches.length / K) + K
          = K * (batches.length / K + 1) := (Nat.mul_succ K _).symm
        _ ≤ K * t := hKt
        _ = j + 1 := ht.symm
        _ ≤ batches.length := by omega
        _ = K * (batches.length / K) + batches.length % K := hmodB.symm
    exact absurd (Nat.mod_lt batches.length hK) (not_lt.mpr (Nat.le_of_add_le_add_left hchain))
  · intro g g'
    rfl

/-- Witness for C10: with window 2 and three batches, the trailing batch does
not change the parameters, and the leftover gradient value is irrelevant. -/
theorem C10_trailing_window_no_effect_witness :
    (0 < 2) ∧
    (train_epoch_core cfgQ 2 [(), (), ()] (0 : ℚ) (5 : ℚ)).params =
      (train_epoch_core cfgQ 2 ([(), (), ()].take (2 * ([(), (), ()].length / 2)))
        (0 : ℚ) (5 : ℚ)).params ∧
    train_epoch_core cfgQ 2 [(), ()] (0 : ℚ) (5 : ℚ) =
      train_epoch_core cfgQ 2 [(), ()] (0 : ℚ) (7 : ℚ) :=
  ⟨by decide, (C10_trailing_window_no_effect cfgQ 2 [(), (), ()] 0 (by decide)).1 5,
   (C10_trailing_window_no_effect cfgQ 2 [(), ()] 0 (by decide)).2 5 7⟩

/-- C6 (amended): the per-epoch training-loss value recorded to telemetry is
the arithmetic mean of the SCALED per-batch losses (each batch loss is
divided by `grad_accum_steps` before being added to `tr_loss`): it equals the
sum of the unscaled batch losses divided by `grad_accum_steps * B`,
equivalently the mean of the unscaled batch losses divided by
`grad_accum_steps` — not the plain mean of the unscaled batch losses unless
`grad_accum_steps = 1`. -/
theorem C6_recorded_loss_scaled_mean {π γ β : Type} (cfg : TCfg π γ β) (K : Nat)
    (batches : List β) (p : π) (g : γ) (hB : batches ≠ []) :
    train_epoch_loss cfg K batches p g =
      (epochUnscaledLosses cfg K batches p g).sum / ((K : ℚ) * (batches.length : ℚ)) ∧
    train_epoch_loss cfg K batches p g =
      mean (epochUnscaledLosses cfg K batches p g) / (K : ℚ) := by
  have hcore : train_epoch_loss cfg K batches p g
      = (epochUnscaledLosses cfg K batches p g).sum / (K : ℚ) / (batches.length : ℚ) := by
    rw [train_epoch_loss, train_epoch_core, foldBatches_trLoss, epochUnscaledLosses]
    simp
  constructor
  · rw [hcore, div_div]
  · have hlen : (epochUnscaledLosses cfg K batches p g).length = batches.length :=
      unscaledLosses_length cfg K batches 0 _
    rw [hcore, mean, hlen, div_div, div_div, mul_comm]

/-- C6 counterexample: with `grad_accum_steps = 2` and a single batch of
unscaled loss `1`, the recorded epoch loss is `1/2`, while the arithmetic
mean of the per-batch loss values is `1`. -/
theorem C6_recorded_loss_counterexample :
    train_epoch_loss cfgQ 2 [()] (0 : ℚ) (0 : ℚ) = 1 / 2 ∧
    mean (epochUnscaledLosses cfgQ 2 [()] (0 : ℚ) (0 : ℚ)) = 1 ∧
    train_epoch_loss cfgQ 2 [()] (0 : ℚ) (0 : ℚ)
      ≠ mean (epochUnscaledLosses cfgQ 2 [()] (0 : ℚ) (0 : ℚ)) := by
  refine ⟨?_, ?_, ?_⟩ <;>
    norm_num [train_epoch_loss, train_epoch_core, foldBatches, batchStep,
      unscaledLosses, epochUnscaledLosses, mean, cfgQ]

/-- Witness for C6 (amended) at the counterexample instance. -/
theorem C6_recorded_loss_scaled_mean_witness :
    ([()] ≠ ([] : List Unit)) ∧
    train_epoch_loss cfgQ 2 [()] (0 : ℚ) (0 : ℚ) =
      (epochUnscaledLosses cfgQ 2 [()] (0 : ℚ) (0 : ℚ)).sum /
        (((2 : Nat) : ℚ) * ((([()] : List Unit).length : Nat) : ℚ)) :=
  ⟨by decide, (C6_recorded_loss_scaled_mean cfgQ 2 [()] 0 0 (by decide)).1⟩

/-! Helper lemmas about evaluation. -/

theorem foldl_append_eq_join (L : List (List ℚ)) :
    ∀ acc : List ℚ, L.foldl (fun a d => a ++ d) acc = acc ++ L.join := by
  induction L with
  | nil => intro acc; simp
  | cons b L ih => intro acc; simp [ih]

theorem weighted_sum_eq_join_sum (L : List (List ℚ)) :
    (L.map (fun b => (b.length : ℚ) * mean b)).sum = L.join.sum := by
  induction L with
  | nil => simp
  | cons b L ih =>
    simp only [List.map_cons, List.sum_cons, List.join_cons, List.sum_append, ih]
    congr 1
    rcases eq_or_ne b ([] : List ℚ) with rfl | hb
    · simp [mean]
    · rw [mean, mul_comm, div_mul_cancel₀]
      exact Nat.cast_ne_zero.mpr (fun h => hb (List.length_eq_zero.mp h))

theorem length_sum_eq_join_length (L : List (List ℚ)) :
    (L.map (fun b => (b.length : ℚ))).sum = (L.join.length : ℚ) := by
  induction L with
  | nil => simp
  | cons b L ih =>
    simp only [List.map_cons, List.sum_cons, List.join_cons, List.length_append, ih]
    push_cast
    ring

/-- C7: `Runner.evaluate` returns the arithmetic mean of the per-pair
distortion values over all pairs of the split (the concatenation of the
per-batch distortion vectors), and this equals the batch-size-weighted mean
of the per-batch means — correct also when the last batch is smaller than
`batch_size`. -/
theorem C7_evaluate_weighted_mean (bs : List (List ℚ)) (hne : bs.join ≠ []) :
    evaluate bs = bs.join.sum / (bs.join.length : ℚ) ∧
    evaluate bs = (bs.map (fun b => (b.length : ℚ) * mean b)).sum /
      (bs.map (fun b => (b.length : ℚ))).sum := by
  have h1 : evaluate bs = mean bs.join := by
    rw [evaluate, foldl_append_eq_join]
    rfl
  constructor
  · rw [h1, mean]
  · rw [h1, mean, weighted_sum_eq_join_sum, length_sum_eq_join_length]

/-- Witness for C7: two batches of sizes 2 and 1; the mean over all three
pairs equals the size-weighted mean of the two batch means. -/
theorem C7_evaluate_weighted_mean_witness :
    ([[(1 : ℚ), 2], [3]].join ≠ []) ∧
    evaluate [[(1 : ℚ), 2], [3]] =
      ([[(1 : ℚ), 2], [3]].map (fun b => (b.length : ℚ) * mean b)).sum /
        ([[(1 : ℚ), 2], [3]].map (fun b => (b.length : ℚ))).sum :=
  ⟨by simp, (C7_evaluate_weighted_mean [[(1 : ℚ), 2], [3]] (by simp)).2⟩

/-- C8: the exported run-summary record reports dimensionality
`dims * (dims + 1)` for the matrix manifold kinds `"upper"` and `"bounded"`
(the symmetric/triangular matrix parameterizations of nominal rank `dims`)
and `dims` for every other manifold kind, and reports the distortion and mAP
fractions multiplied by 100. -/
theorem C8_export_record (a : Args) (d p : ℚ) :
    (export_results a d p).distortion = d * 100 ∧
    (export_results a d p).mAP = p * 100 ∧
    (export_results a d p).dims =
      (if a.model = "upper" ∨ a.model = "bounded" then a.dims * (a.dims + 1) else a.dims) ∧
    (export_results a d p).manifold = a.model ∧
    (export_results a d p).data = a.data ∧
    (export_results a d p).run_id = a.run_id :=
  ⟨rfl, rfl, rfl, rfl, rfl, rfl⟩

/-- C4: a manifold violation reported by `check_all_points` makes
`train_epoch` raise immediately — the result is the `AssertionError` whose
message carries the reason and the offending point, and it is the same
whatever the batch list, so no training batch is processed — and `Runner.run`
does not catch it: the epoch loop propagates the error as its own result. -/
theorem C4_manifold_violation_aborts {π γ β σ ι : Type} :
    (∀ (cfg : TCfg π γ β) (K : Nat) (pt reason : String) (batches : List β) (p : π) (g : γ),
      train_epoch cfg K (false, pt, reason) batches p g =
        .error ("Point outside manifold. Reason: " ++ reason ++ "\n" ++ pt) ∧
      train_epoch cfg K (false, pt, reason) batches p g =
        train_epoch cfg K (false, pt, reason) [] p g) ∧
    (∀ (env : RunEnv σ) (a : Args) (id2 : ι) (e : Nat) (rest : List Nat) (prev : Nat)
        (st : LoopSt σ ι) (msg : String),
      env.trainEpoch e = .error msg →
      runLoop env a id2 (e :: rest) prev st = .error msg) := by
  constructor
  · intro cfg K pt reason batches p g
    exact ⟨rfl, rfl⟩
  · intro env a id2 e rest prev st msg h
    simp only [runLoop, epochBody, h]

/-- Witness for C4: a failing check makes `train_epoch` return the error, and
a run whose epoch 3 training fails propagates that error out of the loop. -/
theorem C4_manifold_violation_aborts_witness :
    (envErr.trainEpoch 3 =
      .error ("Point outside manifold. Reason: " ++ "r" ++ "\n" ++ "p0")) ∧
    train_epoch cfgQ 2 (false, "p0", "r") [()] (0 : ℚ) (0 : ℚ) =
      .error ("Point outside manifold. Reason: " ++ "r" ++ "\n" ++ "p0") ∧
    runLoop envErr argsW () [3, 4] 2 initLoopSt =
      .error ("Point outside manifold. Reason: " ++ "r" ++ "\n" ++ "p0") :=
  ⟨rfl,
   ((@C4_manifold_violation_aborts ℚ ℚ Unit Unit Unit).1 cfgQ 2 "p0" "r" [()] 0 0).1,
   (@C4_manifold_violation_aborts ℚ ℚ Unit Unit Unit).2 envErr argsW () 3 [4] 2 initLoopSt _ rfl⟩

/-! Helper lemmas for the Best-Model Snapshot invariant. -/

theorem bestInv_ckpts {σ ι : Type} (st : LoopSt σ ι) (c : List (Ckpt σ ι)) :
    bestInv { st with ckpts := c } ↔ bestInv st := by
  unfold bestInv
  simp

theorem bestInv_update_improve {σ ι : Type} (st : LoopSt σ ι) (e : Int) (d : ℚ) (s : σ)
    (hInv : bestInv st) (him : improves d st.bestDistortion = true) :
    bestInv (LoopSt.mk (some d) e (some s) st.ckpts (st.valHistory ++ [⟨e, d, s⟩]) : LoopSt σ ι) := by
  refine Or.inr ⟨d, s, st.valHistory, [], rfl, rfl, rfl, ?_, ?_⟩
  · intro ev hev
    rcases hInv with ⟨h1, _, _, _⟩ | ⟨d0, s0, pre, post, hd0, _, hsplit, hpre, hpost⟩
    · rw [h1] at hev
      simp at hev
    · have hlt : d < d0 := by
        rw [hd0] at him
        simpa [improves] using him
      rw [hsplit] at hev
      rcases List.mem_append.mp hev with h | h
      · exact lt_trans hlt (hpre ev h)
      · rcases List.mem_cons.mp h with rfl | h
        · exact hlt
        · exact lt_of_lt_of_le hlt (hpost ev h)
  · intro ev hev
    simp at hev

theorem bestInv_update_noimprove {σ ι : Type} (st : LoopSt σ ι) (e : Int) (d : ℚ) (s : σ)
    (hInv : bestInv st) (him : improves d st.bestDistortion = false) :
    bestInv ({ st with valHistory := st.valHistory ++ [⟨e, d, s⟩] } : LoopSt σ ι) := by
  rcases hInv with ⟨_, h2, _, _⟩ | ⟨d0, s0, pre, post, hd0, hs0, hsplit, hpre, hpost⟩
  · rw [h2] at him
    exact absurd him (by simp [improves])
  · have hle : d0 ≤ d := by
      rw [hd0] at him
      simpa [improves, not_lt] using him
    refine Or.inr ⟨d0, s0, pre, post ++ [⟨e, d, s⟩], hd0, hs0, ?_, hpre, ?_⟩
    · show st.valHistory ++ [⟨e, d, s⟩]
        = pre ++ { epoch := st.bestEpoch, dist := d0, state := s0 } :: (post ++ [⟨e, d, s⟩])
      rw [hsplit]
      simp
    · intro ev hev
      rcases List.mem_append.mp hev with h | h
      · exact hpost ev h
      · rw [List.mem_singleton.mp h]
        exact hle

/-- C2: at every point of the run the Best-Model Snapshot and recorded best
epoch correspond to the validated epoch with strictly minimal validation
distortion so far — the snapshot is replaced exactly on strict improvement,
so a tie never replaces it and the earliest best epoch is preserved: the
invariant `bestInv` holds initially and is preserved by every epoch of the
loop of `Runner.run`. -/
theorem C2_best_snapshot_invariant {σ ι : Type} :
    bestInv (initLoopSt : LoopSt σ ι) ∧
    ∀ (env : RunEnv σ) (a : Args) (id2 : ι) (e : Nat) (st st1 : LoopSt σ ι) (brk : Bool),
      bestInv st → epochBody env a id2 e st = .ok (st1, brk) → bestInv st1 := by
  constructor
  · left
    exact ⟨rfl, rfl, rfl, rfl⟩
  · intro env a id2 e st st1 brk hInv hBody
    unfold epochBody at hBody
    cases htr : env.trainEpoch e with
    | error m =>
      rw [htr] at hBody
      cases hBody
    | ok s =>
      rw [htr] at hBody
      dsimp only at hBody
      set stS := (if e % a.save_epochs = 0 then
          { st with ckpts := st.ckpts ++ [⟨saveKey a.run_id (e : Int), s, id2⟩] }
        else st) with hstS
      have hSInv : bestInv stS := by
        rw [hstS]
        split
        · exact (bestInv_ckpts st _).mpr hInv
        · exact hInv
      by_cases hv : e % a.val_every = 0
      · rw [if_pos hv] at hBody
        cases him : improves (env.valDist s) stS.bestDistortion with
        | true =>
          rw [him] at hBody
          simp only [if_true] at hBody
          split at hBody <;>
            (simp only [Except.ok.injEq, Prod.mk.injEq] at hBody
             obtain ⟨h1, _⟩ := hBody
             rw [← h1]
             exact bestInv_update_improve stS (e : Int) (env.valDist s) s hSInv him)
        | false =>
          rw [him] at hBody
          simp only [Bool.false_eq_true, if_false] at hBody
          split at hBody <;>
            (simp only [Except.ok.injEq, Prod.mk.injEq] at hBody
             obtain ⟨h1, _⟩ := hBody
             rw [← h1]
             exact bestInv_update_noimprove stS (e : Int) (env.valDist s) s hSInv him)
      · rw [if_neg hv] at hBody
        simp only [Except.ok.injEq, Prod.mk.injEq] at hBody
        obtain ⟨h1, _⟩ := hBody
        rw [← h1]
        exact hSInv

/-- Witness for C2: the invariant holds of the initial state and is preserved
by the first (validating) epoch of a concrete run. -/
theorem C2_best_snapshot_invariant_witness :
    bestInv (initLoopSt : LoopSt Unit Unit) ∧
    epochBody envW argsC2 () 1 initLoopSt = .ok (stC2, false) ∧
    bestInv stC2 :=
  ⟨(@C2_best_snapshot_invariant Unit Unit).1, rfl,
   (@C2_best_snapshot_invariant Unit Unit).2 envW argsC2 () 1 initLoopSt stC2 false
     (@C2_best_snapshot_invariant Unit Unit).1 rfl⟩

/-- If no epoch in the list satisfies the validation cadence, the loop never
breaks, never touches the best-model fields, and in particular never records
a snapshot. -/
theorem runLoop_no_validation {σ ι : Type} (env : RunEnv σ) (a : Args) (id2 : ι)
    (sfun : Nat → σ) (htrain : ∀ e, env.trainEpoch e = .ok (sfun e)) :
    ∀ (eps : List Nat) (prev : Nat) (st : LoopSt σ ι),
      (∀ e ∈ eps, e % a.val_every ≠ 0) →
      ∃ st2 last, runLoop env a id2 eps prev st = .ok (st2, last, false) ∧
        st2.bestState = st.bestState := by
  intro eps
  induction eps with
  | nil => intro prev st _; exact ⟨st, prev, rfl, rfl⟩
  | cons e rest ih =>
    intro prev st h
    have hv : e % a.val_every ≠ 0 := h e (List.mem_cons_self e rest)
    have hbody : ∃ st1, epochBody env a id2 e st = .ok (st1, false) ∧
        st1.bestState = st.bestState := by
      unfold epochBody
      rw [htrain e]
      dsimp only
      rw [if_neg hv]
      refine ⟨_, rfl, ?_⟩
      split <;> rfl
    obtain ⟨st1, hb, hbs⟩ := hbody
    obtain ⟨st2, last, hrec, hbs2⟩ := ih e st1 (fun x hx => h x (List.mem_cons_of_mem _ hx))
    refine ⟨st2, last, ?_, hbs2.trans hbs⟩
    simp only [runLoop, hb]
    exact hrec

/-- C5: if the validation cadence never triggers during the whole epoch loop
(so validation never runs and no Best-Model Snapshot is recorded),
finalization of `Runner.run` fails when it restores the missing snapshot
(`load_state_dict` rejects the `None` it is given), so the run signals an
error and no results record is exported. -/
theorem C5_no_validation_fails {σ ι : Type} (env : RunEnv σ) (a : Args) (id2 : ι)
    (sfun : Nat → σ) (htrain : ∀ e, env.trainEpoch e = .ok (sfun e))
    (hval : ∀ e ∈ List.range' 1 a.epochs, e % a.val_every ≠ 0) :
    run env a id2 =
      .error "load_state_dict received None: no best model snapshot was recorded" := by
  obtain ⟨st2, last, hloop, hbs⟩ :=
    runLoop_no_validation env a id2 sfun htrain (List.range' 1 a.epochs) 0 initLoopSt hval
  unfold run
  rw [hloop]
  dsimp only
  rw [hbs]
  rfl

/-- Witness for C5: 2 epochs with `val_every = 5` never validate, and the run
errors out instead of exporting. -/
theorem C5_no_validation_fails_witness :
    (∀ e ∈ List.range' 1 argsC5.epochs, e % argsC5.val_every ≠ 0) ∧
    run envW argsC5 () =
      .error "load_state_dict received None: no best model snapshot was recorded" :=
  ⟨by decide, C5_no_validation_fails envW argsC5 () sfunW (fun _ => rfl) (by decide)⟩

/-- Inversion for one epoch body: whatever the validation branch does, the
checkpoints written by epoch `e` are the previous ones plus the periodic one
exactly when `e % save_epochs == 0`. -/
theorem epochBody_ckpts {σ ι : Type} (env : RunEnv σ) (a : Args) (id2 : ι) (e : Nat)
    (s : σ) (st st1 : LoopSt σ ι) (brk : Bool)
    (htr : env.trainEpoch e = .ok s)
    (hBody : epochBody env a id2 e st = .ok (st1, brk)) :
    st1.ckpts = st.ckpts ++
      (if e % a.save_epochs = 0 then [⟨saveKey a.run_id (e : Int), s, id2⟩] else []) := by
  unfold epochBody at hBody
  rw [htr] at hBody
  dsimp only at hBody
  by_cases hs : e % a.save_epochs = 0
  · rw [if_pos hs] at hBody
    rw [if_pos hs]
    by_cases hv : e % a.val_every = 0
    · rw [if_pos hv] at hBody
      dsimp only at hBody
      cases him : improves (env.valDist s) st.bestDistortion with
      | true =>
        rw [him] at hBody
        simp only [if_true] at hBody
        split at hBody <;>
          (simp only [Except.ok.injEq, Prod.mk.injEq] at hBody
           obtain ⟨h1, _⟩ := hBody
           rw [← h1])
      | false =>
        rw [him] at hBody
        simp only [Bool.false_eq_true, if_false] at hBody
        split at hBody <;>
          (simp only [Except.ok.injEq, Prod.mk.injEq] at hBody
           obtain ⟨h1, _⟩ := hBody
           rw [← h1])
    · rw [if_neg hv] at hBody
      simp only [Except.ok.injEq, Prod.mk.injEq] at hBody
      obtain ⟨h1, _⟩ := hBody
      rw [← h1]
  · rw [if_neg hs] at hBody
    rw [if_neg hs, List.append_nil]
    by_cases hv : e % a.val_every = 0
    · rw [if_pos hv] at hBody
      cases him : improves (env.valDist s) st.bestDistortion with
      | true =>
        rw [him] at hBody
        simp only [if_true] at hBody
        split at hBody <;>
          (simp only [Except.ok.injEq, Prod.mk.injEq] at hBody
           obtain ⟨h1, _⟩ := hBody
           rw [← h1])
      | false =>
        rw [him] at hBody
        simp only [Bool.false_eq_true, if_false] at hBody
        split at hBody <;>
          (simp only [Except.ok.injEq, Prod.mk.injEq] at hBody
           obtain ⟨h1, _⟩ := hBody
           rw [← h1])
    · rw [if_neg hv] at hBody
      simp only [Except.ok.injEq, Prod.mk.injEq] at hBody
      obtain ⟨h1, _⟩ := hBody
      rw [← h1]

/-- Checkpoints written by the epoch loop over epochs `e, e+1, ...`: exactly
one per executed epoch divisible by `save_epochs`, in epoch order; the last
executed epoch is `last`, and when the loop did not stop early it ran through
the whole list. -/
theorem runLoop_ckpts {σ ι : Type} (env : RunEnv σ) (a : Args) (id2 : ι) (sfun : Nat → σ)
    (htrain : ∀ e, env.trainEpoch e = .ok (sfun e)) :
    ∀ (n e prev : Nat) (st st2 : LoopSt σ ι) (last : Nat) (stopped : Bool),
      runLoop env a id2 (List.range' e n) prev st = .ok (st2, last, stopped) →
      (n = 0 ∧ st2 = st ∧ last = prev ∧ stopped = false) ∨
      (0 < n ∧ e ≤ last ∧ last < e + n ∧
        st2.ckpts = st.ckpts ++
          ((List.range' e (last + 1 - e)).filter (fun x => x % a.save_epochs = 0)).map
            (fun x => ⟨saveKey a.run_id (x : Int), sfun x, id2⟩) ∧
        (stopped = false → last + 1 = e + n)) := by
  intro n
  induction n with
  | zero =>
    intro e prev st st2 last stopped h
    simp only [runLoop, Except.ok.injEq, Prod.mk.injEq] at h
    exact Or.inl ⟨rfl, h.1.symm, h.2.1.symm, h.2.2.symm⟩
  | succ n ih =>
    intro e prev st st2 last stopped h
    rw [List.range'_succ e n 1] at h
    cases hb : epochBody env a id2 e st with
    | error m =>
      simp only [runLoop, hb] at h
      cases h
    | ok pr =>
      obtain ⟨st1, brk⟩ := pr
      simp only [runLoop, hb] at h
      have hck1 : st1.ckpts = st.ckpts ++
          (if e % a.save_epochs = 0 then [⟨saveKey a.run_id (e : Int), sfun e, id2⟩] else []) :=
        epochBody_ckpts env a id2 e (sfun e) st st1 brk (htrain e) hb
      cases brk with
      | true =>
        simp only [if_true, Except.ok.injEq, Prod.mk.injEq] at h
        obtain ⟨h1, h2, h3⟩ := h
        refine Or.inr ⟨Nat.succ_pos n, ?_, ?_, ?_, ?_⟩
        · omega
        · omega
        · have hone : last + 1 - e = 1 := by omega
          rw [hone, List.range'_one, ← h1, hck1]
          by_cases hs : e % a.save_epochs = 0 <;> simp [hs, List.filter_cons]
        · intro hstop
          rw [hstop] at h3
          cases h3
      | false =>
        simp only [Bool.false_eq_true, if_false] at h
        rcases ih (e + 1) e st1 st2 last stopped h with
          ⟨hn0, hst, hlast, hstop⟩ | ⟨hn, hle, hlt, hck2, hstop⟩
        · refine Or.inr ⟨Nat.succ_pos n, ?_, ?_, ?_, ?_⟩
          · omega
          · omega
          · have hone : last + 1 - e = 1 := by omega
            rw [hone, List.range'_one, hst, hck1]
            by_cases hs : e % a.save_epochs = 0 <;> simp [hs, List.filter_cons]
          · intro _
            omega
        · refine Or.inr ⟨Nat.succ_pos n, ?_, ?_, ?_, ?_⟩
          · omega
          · omega
          · have hsplit : last + 1 - e = (last - e) + 1 := by omega
            have hsplit2 : last + 1 - (e + 1) = last - e := by omega
            rw [hsplit2] at hck2
            rw [hck2, hck1, hsplit, List.range'_succ e (last - e) 1, List.append_assoc]
            congr 1
            by_cases hs : e % a.save_epochs = 0 <;> simp [hs, List.filter_cons]
          · intro hstopped
            have := hstop hstopped
            omega

/-- C9: for a completed run, the checkpoint store receives exactly one
periodic checkpoint (model state + node index map under key
`run_id + "-best-" + epoch + "ep"`) for every executed epoch divisible by
`save_epochs`, in epoch order, followed by one final checkpoint under the
same key format tagged with the best epoch. -/
theorem C9_checkpoint_schedule {σ ι : Type} (env : RunEnv σ) (a : Args) (id2 : ι)
    (sfun : Nat → σ) (htrain : ∀ e, env.trainEpoch e = .ok (sfun e))
    (out : RunOutcome σ ι) (hrun : run env a id2 = .ok out) :
    out.ckpts =
      ((List.range' 1 out.lastEpoch).filter (fun x => x % a.save_epochs = 0)).map
        (fun x => ⟨saveKey a.run_id (x : Int), sfun x, id2⟩)
      ++ [⟨saveKey a.run_id out.bestEpoch, out.bestModel, id2⟩] := by
  unfold run at hrun
  cases hloop : runLoop env a id2 (List.range' 1 a.epochs) 0 initLoopSt with
  | error m =>
    rw [hloop] at hrun
    cases hrun
  | ok res =>
    obtain ⟨st, last, stopped⟩ := res
    rw [hloop] at hrun
    dsimp only at hrun
    cases hbs : st.bestState with
    | none =>
      rw [hbs] at hrun
      cases hrun
    | some s =>
      rw [hbs] at hrun
      dsimp only at hrun
      simp only [Except.ok.injEq] at hrun
      rcases runLoop_ckpts env a id2 sfun htrain a.epochs 1 0 initLoopSt st last stopped hloop with
        ⟨_, hst, _, _⟩ | ⟨_, _, _, hck, _⟩
      · rw [hst] at hbs
        cases hbs
      · rw [← hrun]
        dsimp only
        rw [hck]
        simp [initLoopSt]

/-- Witness for C9: a one-epoch run checkpointing and validating every epoch
writes the periodic epoch-1 checkpoint and then the final best-epoch one. -/
theorem C9_checkpoint_schedule_witness :
    (∀ e : Nat, envW.trainEpoch e = .ok (sfunW e)) ∧
    run envW argsC9 () = .ok outC9 ∧
    outC9.ckpts =
      ((List.range' 1 outC9.lastEpoch).filter (fun x => x % argsC9.save_epochs = 0)).map
        (fun x => ⟨saveKey argsC9.run_id (x : Int), sfunW x, ()⟩)
      ++ [⟨saveKey argsC9.run_id outC9.bestEpoch, outC9.bestModel, ()⟩] :=
  ⟨fun _ => rfl, rfl, C9_checkpoint_schedule envW argsC9 () sfunW (fun _ => rfl) outC9 rfl⟩

/-- One epoch of the loop when the validation distortion does not improve on
the recorded best: the best-tracking fields are unchanged and the loop breaks
exactly when the epoch validates and `epoch - best_epoch >= patience * 3`. -/
theorem epochBody_no_improve {σ ι : Type} (env : RunEnv σ) (a : Args) (id2 : ι) (e : Nat)
    (s : σ) (st : LoopSt σ ι) (b : Int) (d : ℚ)
    (htr : env.trainEpoch e = .ok s)
    (hbe : st.bestEpoch = b) (hbd : st.bestDistortion = some d)
    (him : improves (env.valDist s) (some d) = false) :
    ∃ st1, epochBody env a id2 e st =
        .ok (st1, decide (e % a.val_every = 0) &&
          decide ((e : Int) - b ≥ (a.patience : Int) * 3)) ∧
      st1.bestEpoch = b ∧ st1.bestDistortion = some d := by
  unfold epochBody
  rw [htr]
  dsimp only
  have hsd : (if e % a.save_epochs = 0 then
      { st with ckpts := st.ckpts ++ [⟨saveKey a.run_id (e : Int), s, id2⟩] }
    else st).bestDistortion = some d := by
    split <;> exact hbd
  have hse : (if e % a.save_epochs = 0 then
      { st with ckpts := st.ckpts ++ [⟨saveKey a.run_id (e : Int), s, id2⟩] }
    else st).bestEpoch = b := by
    split <;> exact hbe
  by_cases hv : e % a.val_every = 0
  · rw [if_pos hv, hsd, him]
    simp only [Bool.false_eq_true, if_false]
    by_cases hbrk : (e : Int) - b ≥ (a.patience : Int) * 3
    · rw [hse, if_pos hbrk]
      have hb2 : (decide (e % a.val_every = 0) &&
          decide ((e : Int) - b ≥ (a.patience : Int) * 3)) = true := by
        simp [hv, hbrk]
      rw [hb2]
      exact ⟨_, rfl, rfl, rfl⟩
    · rw [hse, if_neg hbrk]
      have hb2 : (decide (e % a.val_every = 0) &&
          decide ((e : Int) - b ≥ (a.patience : Int) * 3)) = false := by
        simp [hbrk]
      rw [hb2]
      exact ⟨_, rfl, rfl, rfl⟩
  · rw [if_neg hv]
    have hb2 : (decide (e % a.val_every = 0) &&
        decide ((e : Int) - b ≥ (a.patience : Int) * 3)) = false := by
      simp [hv]
    rw [hb2]
    exact ⟨_, rfl, hse, hsd⟩

/-- C1 (amended): the early-stopping condition is evaluated only at
validation epochs (`epoch % val_every == 0`), so when no validation
improvement occurs after the best epoch `b`, the loop terminates early
exactly at the FIRST validation epoch at or after `b + patience * 3` — the
least multiple `m` of `val_every` with `m ≥ b + patience * 3` — keeping best
epoch `b` and its distortion; this equals `b + 3 * patience` precisely when
`val_every` divides it (e.g. for `val_every = 1`), and is strictly later
otherwise. -/
theorem C1_early_stop_first_validation {σ ι : Type} (env : RunEnv σ) (a : Args)
    (id2 : ι) (sfun : Nat → σ) (htrain : ∀ e, env.trainEpoch e = .ok (sfun e))
    (b : Nat) (d : ℚ) (hnoimp : ∀ e, b < e → ¬ env.valDist (sfun e) < d)
    (m : Nat) (hmv : a.val_every ∣ m) (hm3p : b + a.patience * 3 ≤ m)
    (hmin : ∀ x, a.val_every ∣ x → b + a.patience * 3 ≤ x → m ≤ x) :
    ∀ (n e prev : Nat) (st : LoopSt σ ι),
      st.bestEpoch = (b : Int) → st.bestDistortion = some d →
      b < e → e ≤ m → m < e + n →
      (runLoop env a id2 (List.range' e n) prev st).map
        (fun r => (r.2.1, r.2.2, r.1.bestEpoch, r.1.bestDistortion))
        = .ok (m, true, (b : Int), some d) := by
  intro n
  induction n with
  | zero =>
    intro e prev st _ _ _ h4 h5
    omega
  | succ n ih =>
    intro e prev st hbe hbd hbe2 hem hmn
    have him : improves (env.valDist (sfun e)) (some d) = false := by
      simp only [improves]
      exact decide_eq_false (hnoimp e hbe2)
    obtain ⟨st1, hbody, hbe1, hbd1⟩ :=
      epochBody_no_improve env a id2 e (sfun e) st (b : Int) d (htrain e) hbe hbd him
    rw [List.range'_succ e n 1]
    by_cases hv : e % a.val_every = 0
    · by_cases hbrk : (e : Int) - (b : Int) ≥ (a.patience : Int) * 3
      · have hflag : (decide (e % a.val_every = 0) &&
            decide ((e : Int) - (b : Int) ≥ (a.patience : Int) * 3)) = true := by
          simp [hv, hbrk]
        rw [hflag] at hbody
        have hbp : b + a.patience * 3 ≤ e := by omega
        have hme : m = e := le_antisymm (hmin e (Nat.dvd_of_mod_eq_zero hv) hbp) hem
        simp only [runLoop, hbody, if_true, Except.map]
        rw [hme, hbe1, hbd1]
      · have hflag : (decide (e % a.val_every = 0) &&
            decide ((e : Int) - (b : Int) ≥ (a.patience : Int) * 3)) = false := by
          simp [hbrk]
        rw [hflag] at hbody
        simp only [runLoop, hbody, Bool.false_eq_true, if_false]
        have hlt : e < b + a.patience * 3 := by omega
        exact ih (e + 1) e st1 hbe1 hbd1 (by omega) (by omega) (by omega)
    · have hflag : (decide (e % a.val_every = 0) &&
          decide ((e : Int) - (b : Int) ≥ (a.patience : Int) * 3)) = false := by
        simp [hv]
      rw [hflag] at hbody
      simp only [runLoop, hbody, Bool.false_eq_true, if_false]
      have hvm : e ≠ m := by
        intro hc
        apply hv
        obtain ⟨c, hc2⟩ := hmv
        rw [hc, hc2]
        exact Nat.mul_mod_right _ _
      exact ih (e + 1) e st1 hbe1 hbd1 (by omega) (by omega) (by omega)

/-- C1 counterexample: with `patience = 1` and `val_every = 2`, a run whose
first validation (epoch 2) improves and whose later validations never improve
(the validation distortion of `envW` is constantly 2) stops early at epoch 6,
not at `best_epoch + 3 * patience = 5`: epoch 5 is not a validation epoch, so
the early-stopping condition is never evaluated there. -/
theorem C1_early_stop_counterexample :
    (run envW argsW ()).map (fun o => (o.lastEpoch, o.bestEpoch, o.earlyStopped))
      = .ok (6, 2, true) ∧
    argsW.patience = 1 ∧ argsW.val_every = 2 ∧
    (6 : Nat) ≠ 2 + 3 * argsW.patience :=
  ⟨rfl, rfl, rfl, by decide⟩

/-- Witness for C1 (amended): in the same concrete run, starting just after
best epoch 2 with distortion 2, the loop over epochs 3..10 stops exactly at
epoch 6 — the least multiple of `val_every = 2` at or above
`2 + patience * 3 = 5`. -/
theorem C1_early_stop_first_validation_witness :
    (2 ∣ 6) ∧ (2 + argsW.patience * 3 ≤ 6) ∧
    (runLoop envW argsW () (List.range' 3 8) 2 stC1).map
      (fun r => (r.2.1, r.2.2, r.1.bestEpoch, r.1.bestDistortion))
      = .ok (6, true, ((2 : Nat) : Int), some 2) :=
  ⟨by decide, by decide,
   C1_early_stop_first_validation envW argsW () sfunW (fun _ => rfl) 2 2
     (fun _ _ => by simp [envW, sfunW]) 6 (by decide) (by decide)
     (fun x hx h2 => by simp only [argsW] at hx h2; omega)
     8 3 2 stC1 rfl rfl (by decide) (by decide) (by decide)⟩
